import Mathlib

/-!
Verification development for the checkpoint-conversion pipeline in
`src/convert_to_hf.py` (orionw/nlu-evals).

The Python source is shallowly embedded:
* JSON config documents become functions `String → Option JVal`,
  with dictionary assignment modelled as pointwise functional update;
* Python's `str.replace` (which rewrites every non-overlapping occurrence,
  left to right) is modelled by a fuel-based list recursion `replaceAux`;
* the state-dict rewriting loop of `modify_state_dict` is modelled over
  association lists with Python-dict insertion semantics (`dictInsert`);
* the batch driver `process_checkpoints` is modelled as a function from an
  environment (directory listing, HF_TOKEN, which output weight files exist)
  to a trace of observable events plus an optional error, reproducing the
  source's control flow: extension filter, empty check, sort, credential
  check, tokenizer downloads, scratch-dir creation, first-checkpoint decode,
  then the per-checkpoint skip-or-convert loop (where each conversion calls
  `update_config`, which fetches the remote base config).
-/

namespace ConvertToHf

/-- JSON-ish scalar values appearing in config documents. -/
inductive JVal where
  | num (n : Int)
  | str (s : String)
  | bool (b : Bool)
deriving DecidableEq

/-- A config document: finite JSON object modelled by its lookup function
(Python `dict`; `d[k] = v` is pointwise update). -/
def Config : Type := String → Option JVal

/-- Dictionary assignment `cfg[k] = v` from the source. -/
def setField (c : Config) (k : String) (v : JVal) : Config :=
  fun k' => if k' = k then some v else c k'

/-- The field-mapping table of `update_config`
(src/convert_to_hf.py lines 77-84): pairs (old native field, new canonical field). -/
def field_mappings : List (String × String) :=
  [("rotary_emb_base", "global_rope_theta"),
   ("num_hidden_layers", "num_hidden_layers"),
   ("hidden_size", "hidden_size"),
   ("intermediate_size", "intermediate_size"),
   ("num_attention_heads", "num_attention_heads"),
   ("vocab_size", "vocab_size")]

/-- The fixed architectural constants set by `update_config`
(src/convert_to_hf.py lines 94-101). -/
def fixed_values : List (String × JVal) :=
  [("max_position_embeddings", JVal.num 8192),
   ("bos_token_id", JVal.num 2),
   ("mask_token_id", JVal.num 4),
   ("pad_token_id", JVal.num 0),
   ("eos_token_id", JVal.num 1),
   ("sep_token_id", JVal.num 1),
   ("cls_token_id", JVal.num 1),
   ("position_embedding_type", JVal.str "sans_pos")]

/-- One iteration of the mapping loop of `update_config`
(lines 87-91): `if old_field in current_config: modernbert[new_field] = current[old_field]`. -/
def mapStep (native : Config) (cfg : Config) (pr : String × String) : Config :=
  match native pr.1 with
  | some v => setField cfg pr.2 v
  | none => cfg

/-- The mapping loop of `update_config` applied to the fetched base config. -/
def applyFieldMappings (native base : Config) : Config :=
  field_mappings.foldl (mapStep native) base

/-- One fixed-constant assignment of `update_config` (lines 94-101). -/
def setStep (cfg : Config) (pr : String × JVal) : Config :=
  setField cfg pr.1 pr.2

/-- Value-level core of `update_config` (src/convert_to_hf.py lines 64-110):
starting from the fetched ModernBERT base config, copy each mapped field from
the checkpoint's native config when present, then set the fixed constants.
The source never raises in this section (missing base fields are read with
`dict.get(new_field, None)` only for logging), so the embedding is total. -/
def update_config (native base : Config) : Config :=
  fixed_values.foldl setStep (applyFieldMappings native base)

/-- Canonical names that are targets of the field mapping. -/
def mappingTargets : List String := field_mappings.map Prod.snd

/-- Keys of the fixed architectural constants. -/
def fixedKeys : List String := fixed_values.map Prod.fst

/-- Occurrence test: does `pat` occur as a contiguous substring of `s`? -/
def containsSub (pat : List Char) : List Char → Bool
  | [] => pat.isPrefixOf []
  | c :: rest => pat.isPrefixOf (c :: rest) || containsSub pat rest

/-- Fuel-based engine for Python's `str.replace`: rewrites every
non-overlapping occurrence of `pat` by `rep`, scanning left to right.
Fuel at least the length of the scanned list makes it exact. -/
def replaceAux (pat rep : List Char) : Nat → List Char → List Char
  | _, [] => []
  | 0, c :: rest => c :: rest
  | fuel + 1, c :: rest =>
    if pat.isPrefixOf (c :: rest) ∧ pat ≠ [] then
      rep ++ replaceAux pat rep fuel (rest.drop (pat.length - 1))
    else
      c :: replaceAux pat rep fuel rest

/-- Python's `s.replace(pat, rep)` for non-empty patterns. -/
def pyReplace (s pat rep : String) : String :=
  ⟨replaceAux pat.data rep.data s.data.length s.data⟩

/-- Key rewriting of `modify_state_dict` (src/convert_to_hf.py line 121):
`old_key.replace('bert.encoder.', 'model.').replace('bert.', 'model.')`. -/
def rewriteKey (k : String) : String :=
  pyReplace (pyReplace k "bert.encoder." "model.") "bert." "model."

/-- Python dict assignment on an insertion-ordered association list:
overwrite in place when the key exists, append otherwise. -/
def dictInsert {V : Type} (d : List (String × V)) (k : String) (v : V) :
    List (String × V) :=
  if k ∈ d.map Prod.fst then
    d.map (fun p => if p.1 = k then (k, v) else p)
  else d ++ [(k, v)]

/-- The state-dict rewriting loop of `modify_state_dict`
(src/convert_to_hf.py lines 117-130): build a new dict whose keys are
rewritten, values carried over untouched. -/
def modify_state_dict {V : Type} (d : List (String × V)) : List (String × V) :=
  d.foldl (fun acc p => dictInsert acc (rewriteKey p.1) p.2) []

/-- Code-point comparison of strings as lists of characters
(Python string `<`). -/
def strLtL : List Char → List Char → Bool
  | [], [] => false
  | [], _ :: _ => true
  | _ :: _, [] => false
  | a :: as, b :: bs =>
    if a.toNat < b.toNat then true
    else if b.toNat < a.toNat then false
    else strLtL as bs

/-- Total order used by `checkpoint_files.sort(key=basename)`. -/
def strLe (a b : String) : Bool := !(strLtL b.data a.data)

/-- Insert into a sorted list (ascending by code points). -/
def insertSorted (x : String) : List String → List String
  | [] => [x]
  | y :: ys => if strLe x y then x :: y :: ys else y :: insertSorted x ys

/-- Ascending lexicographic sort of basenames
(src/convert_to_hf.py line 146). -/
def sortByName (l : List String) : List String := l.foldr insertSorted []

/-- Extension filter of the checkpoint scan: `file.endswith('.pt')`
(src/convert_to_hf.py line 138). -/
def hasPtExt (f : String) : Bool := ".pt".data.isSuffixOf f.data

/-- Output subdirectory name for a checkpoint:
`os.path.basename(checkpoint_file).split(".")[0]`
(src/convert_to_hf.py line 192), i.e. the basename truncated at the
first dot. -/
def subdirName (cp : String) : String :=
  ⟨cp.data.takeWhile (fun c => !(c == '.'))⟩

/-- Environment a batch run observes: directory listing (basenames),
the optional HF_TOKEN, and which output subdirectories already contain
`pytorch_model.bin`. -/
structure Env where
  files : List String
  hfToken : Option String
  hasWeights : String → Bool

/-- Errors raised by `process_checkpoints` that the claims mention. -/
inductive Err where
  | missingToken
deriving DecidableEq

/-- Observable actions of one batch run of `process_checkpoints`. -/
inductive Event where
  | fetchTokenizerFile (name : String)
  | createScratch
  | decode (cp : String)
  | fetchBaseConfig
  | makeOutputDir (sub : String)
  | writeOutput (sub : String)
  | skip (cp : String)
deriving DecidableEq

/-- The fixed tokenizer asset list (src/convert_to_hf.py line 156). -/
def tokenizer_files : List String :=
  ["tokenizer.json", "tokenizer_config.json", "special_tokens_map.json"]

/-- Recognisers for event kinds, used for trace counting. -/
def isFetchBase : Event → Bool
  | Event.fetchBaseConfig => true
  | _ => false

def isSkip : Event → Bool
  | Event.skip _ => true
  | _ => false

def isWriteOutput : Event → Bool
  | Event.writeOutput _ => true
  | _ => false

/-- The per-checkpoint loop of `process_checkpoints`
(src/convert_to_hf.py lines 191-231): skip a checkpoint whose output
subdirectory already holds `pytorch_model.bin`; otherwise create the
subdirectory, decode the checkpoint, reconcile the config (which fetches
the remote base config inside `update_config`), rewrite the weights and
copy everything into the subdirectory — which makes the weights file
exist for ALL later checkpoints with the same subdirectory name. -/
def convertLoop (hasW : String → Bool) : List String → List Event
  | [] => []
  | cp :: rest =>
    if hasW (subdirName cp) then
      Event.skip cp :: convertLoop hasW rest
    else
      Event.makeOutputDir (subdirName cp) :: Event.decode cp ::
        Event.fetchBaseConfig :: Event.writeOutput (subdirName cp) ::
          convertLoop (fun s => if s = subdirName cp then true else hasW s) rest

/-- Batch driver `process_checkpoints` (src/convert_to_hf.py lines 132-231)
as a trace function: filter `.pt` files, return cleanly when none; check
HF_TOKEN next (raising before anything is downloaded, decoded or created);
then download the three tokenizer files, create the shared scratch
directory, decode the first checkpoint for the config template, and run
the per-checkpoint loop. -/
def process_checkpoints (env : Env) : List Event × Option Err :=
  match sortByName (List.filter hasPtExt env.files), env.hfToken with
  | [], _ => ([], none)
  | _ :: _, none => ([], some Err.missingToken)
  | first :: rest, some _ =>
    (tokenizer_files.map Event.fetchTokenizerFile
       ++ Event.createScratch :: Event.decode first ::
            convertLoop env.hasWeights (first :: rest),
     none)

/-- Python `s.rstrip('/')`: drop all trailing slash characters. -/
def rstripSlashes (s : String) : String :=
  ⟨(s.data.reverse.dropWhile (fun c => c == '/')).reverse⟩

/-- Output directory computed by `main`
(src/convert_to_hf.py line 249): `args.input_dir.rstrip("/") + "-converted"`. -/
def output_dir_of_input (input : String) : String :=
  rstripSlashes input ++ "-converted"

/-- The output directory `main` actually uses: line 249 overwrites
`args.output_dir` unconditionally, so the command-line value is ignored. -/
def main_output_dir (input_dir : String) (cli_output_dir : Option String) :
    String :=
  output_dir_of_input input_dir

/-! Helper lemmas about the config-reconciliation folds. -/

theorem mapStep_ne (native c : Config) (pr : String × String) (k : String)
    (h : k ≠ pr.2) : mapStep native c pr k = c k := by
  cases hv : native pr.1 <;> simp [mapStep, hv, setField, h]

theorem foldl_mapStep_not_target (native : Config) :
    ∀ (l : List (String × String)) (c : Config) (k : String),
      k ∉ l.map Prod.snd → (l.foldl (mapStep native) c) k = c k := by
  intro l
  induction l with
  | nil => intro c k _; rfl
  | cons pr rest ih =>
    intro c k hk
    simp only [List.map_cons, List.mem_cons] at hk
    push_neg at hk
    rw [List.foldl_cons, ih _ k hk.2, mapStep_ne _ _ _ _ hk.1]

theorem foldl_mapStep_target (native : Config) :
    ∀ (l : List (String × String)) (c : Config) (pr : String × String),
      (l.map Prod.snd).Nodup → pr ∈ l →
      (l.foldl (mapStep native) c) pr.2 = (native pr.1).or (c pr.2) := by
  intro l
  induction l with
  | nil => intro c pr _ hpr; simp at hpr
  | cons q rest ih =>
    intro c pr hnd hpr
    simp only [List.map_cons, List.nodup_cons] at hnd
    rcases List.mem_cons.mp hpr with hq | hpr'
    · subst hq
      rw [List.foldl_cons,
        foldl_mapStep_not_target native rest (mapStep native c pr) pr.2 hnd.1]
      cases hv : native pr.1 <;> simp [mapStep, hv, setField]
    · have hne : pr.2 ≠ q.2 := by
        intro he
        exact hnd.1 (he ▸ List.mem_map_of_mem Prod.snd hpr')
      rw [List.foldl_cons, ih _ pr hnd.2 hpr', mapStep_ne _ _ _ _ hne]

theorem foldl_setStep_not_key :
    ∀ (l : List (String × JVal)) (c : Config) (k : String),
      k ∉ l.map Prod.fst → (l.foldl setStep c) k = c k := by
  intro l
  induction l with
  | nil => intro c k _; rfl
  | cons pr rest ih =>
    intro c k hk
    simp only [List.map_cons, List.mem_cons] at hk
    push_neg at hk
    rw [List.foldl_cons, ih _ k hk.2]
    simp [setStep, setField, hk.1]

theorem foldl_setStep_key :
    ∀ (l : List (String × JVal)) (c : Config) (pr : String × JVal),
      (l.map Prod.fst).Nodup → pr ∈ l →
      (l.foldl setStep c) pr.1 = some pr.2 := by
  intro l
  induction l with
  | nil => intro c pr _ hpr; simp at hpr
  | cons q rest ih =>
    intro c pr hnd hpr
    simp only [List.map_cons, List.nodup_cons] at hnd
    rcases List.mem_cons.mp hpr with hq | hpr'
    · subst hq
      rw [List.foldl_cons,
        foldl_setStep_not_key rest (setStep c pr) pr.1 hnd.1]
      simp [setStep, setField]
    · have hne : pr.1 ≠ q.1 := by
        intro he
        exact hnd.1 (he ▸ List.mem_map_of_mem Prod.fst hpr')
      rw [List.foldl_cons, ih _ pr hnd.2 hpr']

/-- C1: For every native and base config, `update_config` keeps every
base-config field whose canonical name is neither a mapping target nor one
of the fixed constants unchanged; it sets each mapped canonical field to
the native config's value when the native field is present and leaves the
base value otherwise; and the fixed architectural constants
(max_position_embeddings = 8192, bos_token_id = 2, mask_token_id = 4,
pad_token_id = 0, eos_token_id = 1, sep_token_id = 1, cls_token_id = 1,
position_embedding_type = "sans_pos") are always present with exactly those
literals, overwriting any prior value from either source. -/
theorem update_config_reconciles (native base : Config) :
    (∀ k : String, k ∉ mappingTargets → k ∉ fixedKeys →
        update_config native base k = base k)
    ∧ (∀ pr ∈ field_mappings,
        update_config native base pr.2 = (native pr.1).or (base pr.2))
    ∧ (∀ pr ∈ fixed_values,
        update_config native base pr.1 = some pr.2) := by
  refine ⟨?_, ?_, ?_⟩
  · intro k hkm hkf
    rw [update_config, foldl_setStep_not_key _ _ _ (by simpa [fixedKeys] using hkf),
      applyFieldMappings,
      foldl_mapStep_not_target _ _ _ _ (by simpa [mappingTargets] using hkm)]
  · intro pr hpr
    have hfix : pr.2 ∉ fixed_values.map Prod.fst := by
      revert hpr
      have : ∀ q ∈ field_mappings, q.2 ∉ fixed_values.map Prod.fst := by decide
      exact this pr
    rw [update_config, foldl_setStep_not_key _ _ _ hfix, applyFieldMappings,
      foldl_mapStep_target native field_mappings base pr (by decide) hpr]
  · intro pr hpr
    rw [update_config, foldl_setStep_key _ _ _ (by decide) hpr]

/-- Witness for C1 at concrete configs: an unmapped base field survives,
a mapped field is overridden by the native value, and a fixed constant
overwrites the base value. -/
theorem update_config_reconciles_witness :
    update_config
        (fun k => if k = "hidden_size" then some (JVal.num 1024) else none)
        (fun k => if k = "hidden_size" then some (JVal.num 768) else
          if k = "hidden_act" then some (JVal.str "gelu") else
          if k = "pad_token_id" then some (JVal.num 99) else none)
        "hidden_act"
      = some (JVal.str "gelu")
    ∧ update_config
        (fun k => if k = "hidden_size" then some (JVal.num 1024) else none)
        (fun k => if k = "hidden_size" then some (JVal.num 768) else
          if k = "hidden_act" then some (JVal.str "gelu") else
          if k = "pad_token_id" then some (JVal.num 99) else none)
        "hidden_size"
      = some (JVal.num 1024)
    ∧ update_config
        (fun k => if k = "hidden_size" then some (JVal.num 1024) else none)
        (fun k => if k = "hidden_size" then some (JVal.num 768) else
          if k = "hidden_act" then some (JVal.str "gelu") else
          if k = "pad_token_id" then some (JVal.num 99) else none)
        "pad_token_id"
      = some (JVal.num 0) :=
  ⟨((update_config_reconciles _ _).1 "hidden_act" (by decide) (by decide)).trans
      (by decide),
   ((update_config_reconciles _ _).2.1 ("hidden_size", "hidden_size")
      (by decide)).trans (by decide),
   ((update_config_reconciles _ _).2.2 ("pad_token_id", JVal.num 0)
      (by decide)).trans (by decide)⟩

/-- C5 counterexample: the base config lacks the mapped canonical field
`hidden_size` entirely while the native config has it, yet `update_config`
completes normally and simply installs the native value — the source reads
the base value with `dict.get(new_field, None)` (line 89) purely for
logging and has no error path for a missing canonical field. -/
theorem update_config_missing_base_field_no_error :
    (fun (_ : String) => (none : Option JVal)) "hidden_size" = none
    ∧ (fun k => if k = "hidden_size" then some (JVal.num 768) else none)
        "hidden_size" = some (JVal.num 768)
    ∧ update_config
        (fun k => if k = "hidden_size" then some (JVal.num 768) else none)
        (fun _ => none) "hidden_size"
      = some (JVal.num 768) := by
  refine ⟨rfl, by decide, by decide⟩

/-- C5 amended: when the base config is missing a mapped canonical field
entirely and the corresponding native field is present, `update_config`
does not fail; it sets the canonical field to the native config's value. -/
theorem update_config_missing_base_field_uses_native
    (native base : Config) (pr : String × String) (v : JVal)
    (hpr : pr ∈ field_mappings) (hbase : base pr.2 = none)
    (hnat : native pr.1 = some v) :
    update_config native base pr.2 = some v := by
  have hfix : pr.2 ∉ fixed_values.map Prod.fst := by
    revert hpr
    have h : ∀ q ∈ field_mappings, q.2 ∉ fixed_values.map Prod.fst := by decide
    exact h pr
  rw [update_config, foldl_setStep_not_key _ _ _ hfix, applyFieldMappings,
    foldl_mapStep_target native field_mappings base pr (by decide) hpr, hnat]
  rfl

/-- Witness for C5's amended theorem at concrete configs. -/
theorem update_config_missing_base_field_uses_native_witness :
    update_config
        (fun k => if k = "rotary_emb_base" then some (JVal.num 10000) else none)
        (fun _ => none) "global_rope_theta"
      = some (JVal.num 10000) :=
  update_config_missing_base_field_uses_native
    (fun k => if k = "rotary_emb_base" then some (JVal.num 10000) else none)
    (fun _ => none) ("rotary_emb_base", "global_rope_theta") (JVal.num 10000)
    (by decide) rfl (by decide)

/-! Helper lemmas about occurrence-based replacement. -/

theorem isPrefixOf_trans {a b c : List Char} (h₁ : a.isPrefixOf b = true)
    (h₂ : b.isPrefixOf c = true) : a.isPrefixOf c = true := by
  rw [ List.isPrefixOf_iff_prefix] at h₁ h₂ ⊢
  exact h₁.trans h₂

theorem containsSub_mono (pat₁ pat₂ : List Char)
    (hp : pat₁.isPrefixOf pat₂ = true) :
    ∀ s : List Char, containsSub pat₂ s = true → containsSub pat₁ s = true := by
  intro s
  induction s with
  | nil =>
    intro h
    simp only [containsSub] at h ⊢
    exact isPrefixOf_trans hp h
  | cons c cs ih =>
    intro h
    simp only [containsSub, Bool.or_eq_true] at h ⊢
    rcases h with h | h
    · exact Or.inl (isPrefixOf_trans hp h)
    · exact Or.inr (ih h)

theorem replaceAux_of_not_contains (pat rep : List Char) :
    ∀ s : List Char, containsSub pat s = false →
      ∀ fuel : Nat, replaceAux pat rep fuel s = s := by
  intro s
  induction s with
  | nil =>
    intro _ fuel
    cases fuel <;> rfl
  | cons c cs ih =>
    intro h fuel
    have hsplit : pat.isPrefixOf (c :: cs) = false ∧ containsSub pat cs = false := by
      simpa [containsSub] using h
    cases fuel with
    | zero => rfl
    | succ n =>
      simp only [replaceAux]
      rw [if_neg (fun hx => by simp [hsplit.1] at hx), ih hsplit.2 n]

theorem pyReplace_of_not_contains (s pat rep : String)
    (h : containsSub pat.data s.data = false) : pyReplace s pat rep = s := by
  rw [pyReplace, replaceAux_of_not_contains pat.data rep.data s.data h]

/-- C2 counterexample: the key "x.bert.y" starts with neither the
`bert.encoder.` nor the `bert.` prefix, yet `modify_state_dict`'s key
rewriting changes it — Python's `str.replace` rewrites every occurrence of
the pattern, not only a leading one, so the claimed pass-through of keys
matching neither prefix is false. -/
theorem rewriteKey_nonpfx_key_changed :
    ("bert.encoder.").data.isPrefixOf ("x.bert.y").data = false
    ∧ ("bert.").data.isPrefixOf ("x.bert.y").data = false
    ∧ rewriteKey "x.bert.y" ≠ "x.bert.y"
    ∧ rewriteKey "x.bert.y" = "x.model.y" := by
  refine ⟨rfl, rfl, by decide, by decide⟩

/-- C2 amended: the rewriting replaces every occurrence of
`bert.encoder.` by `model.` and then every occurrence of `bert.` by
`model.` (Python `str.replace` semantics). Consequently a key with no
occurrence of `bert.` anywhere is passed through unchanged (never an
error), the two documented examples rewrite as stated, and a key
containing `bert.` in the middle is rewritten there as well. -/
theorem rewriteKey_occurrence_semantics :
    (∀ k : String, containsSub ("bert.").data k.data = false → rewriteKey k = k)
    ∧ rewriteKey "bert.encoder.layer.0.weight" = "model.layer.0.weight"
    ∧ rewriteKey "bert.weight" = "model.weight"
    ∧ rewriteKey "x.bert.y" = "x.model.y" := by
  refine ⟨?_, by decide, by decide, by decide⟩
  intro k h
  have hbe : containsSub ("bert.encoder.").data k.data = false := by
    cases hx : containsSub ("bert.encoder.").data k.data with
    | false => rfl
    | true =>
      have hc := containsSub_mono ("bert.").data ("bert.encoder.").data
        (by decide) k.data hx
      rw [h] at hc
      cases hc
  rw [rewriteKey, pyReplace_of_not_contains k _ _ hbe,
    pyReplace_of_not_contains k _ _ h]

/-- Witness for C2's amended theorem: a key with no `bert.` occurrence is
unchanged. -/
theorem rewriteKey_occurrence_semantics_witness :
    rewriteKey "classifier.weight" = "classifier.weight" :=
  rewriteKey_occurrence_semantics.1 "classifier.weight" (by decide)

/-! Helper lemmas about the state-dict rewriting fold. -/

theorem dictInsert_of_not_mem {V : Type} (d : List (String × V)) (k : String)
    (v : V) (h : k ∉ d.map Prod.fst) : dictInsert d k v = d ++ [(k, v)] := by
  rw [dictInsert, if_neg h]

theorem foldl_dictInsert_of_nodup {V : Type} :
    ∀ (d acc : List (String × V)),
      (acc.map Prod.fst ++ d.map (fun p => rewriteKey p.1)).Nodup →
      d.foldl (fun a p => dictInsert a (rewriteKey p.1) p.2) acc
        = acc ++ d.map (fun p => (rewriteKey p.1, p.2)) := by
  intro d
  induction d with
  | nil => intro acc _; simp
  | cons p ps ih =>
    intro acc hnd
    have hmem : rewriteKey p.1 ∉ acc.map Prod.fst := by
      intro hin
      exact (List.disjoint_of_nodup_append hnd) hin
        (by simp [List.mem_cons])
    rw [List.foldl_cons, dictInsert_of_not_mem acc _ _ hmem, ih]
    · simp
    · have hnd' :
          ((acc.map Prod.fst ++ [rewriteKey p.1])
            ++ ps.map (fun q => rewriteKey q.1)).Nodup := by
        rw [List.append_assoc]
        simpa using hnd
      simpa [List.map_append] using hnd'

/-- C3 counterexample: the distinct keys `bert.encoder.x` and `bert.x` both
rewrite to `model.x`, so the rebuilt dict collapses two entries into one
(the later tensor wins) — the claimed cardinality preservation fails on
this weights mapping. -/
theorem modify_state_dict_collision_shrinks :
    (modify_state_dict [("bert.encoder.x", (0 : Nat)), ("bert.x", 1)]).length = 1
    ∧ ([("bert.encoder.x", (0 : Nat)), ("bert.x", 1)] : List (String × Nat)).length = 2
    ∧ modify_state_dict [("bert.encoder.x", (0 : Nat)), ("bert.x", 1)]
        = [("model.x", 1)] := by
  refine ⟨by decide, rfl, by decide⟩

/-- C3 amended: whenever no two keys of the input rewrite to the same key
(true of every well-formed source state dict), `modify_state_dict` is
exactly the key-rewriting map: same number of entries, and every tensor
value kept identical, in order, under its rewritten key. -/
theorem modify_state_dict_injective_preserves (V : Type)
    (d : List (String × V))
    (hinj : (d.map (fun p => rewriteKey p.1)).Nodup) :
    modify_state_dict d = d.map (fun p => (rewriteKey p.1, p.2))
    ∧ (modify_state_dict d).length = d.length
    ∧ (modify_state_dict d).map Prod.snd = d.map Prod.snd := by
  have h : modify_state_dict d = d.map (fun p => (rewriteKey p.1, p.2)) := by
    rw [modify_state_dict, foldl_dictInsert_of_nodup d [] (by simpa using hinj)]
    simp
  refine ⟨h, ?_, ?_⟩
  · rw [h, List.length_map]
  · rw [h, List.map_map]
    rfl

/-- Witness for C3's amended theorem at a concrete two-entry state dict. -/
theorem modify_state_dict_injective_preserves_witness :
    modify_state_dict [("bert.encoder.a", (0 : Nat)), ("bert.b", 1)]
      = [("model.a", 0), ("model.b", 1)]
    ∧ (modify_state_dict [("bert.encoder.a", (0 : Nat)), ("bert.b", 1)]).length
      = 2 :=
  ⟨((modify_state_dict_injective_preserves Nat
      [("bert.encoder.a", (0 : Nat)), ("bert.b", 1)] (by decide)).1).trans
        (by decide),
   ((modify_state_dict_injective_preserves Nat
      [("bert.encoder.a", (0 : Nat)), ("bert.b", 1)] (by decide)).2.1).trans
        (by decide)⟩

/-! Helper lemmas about the batch conversion loop and driver. -/

theorem length_insertSorted (x : String) :
    ∀ l : List String, (insertSorted x l).length = l.length + 1 := by
  intro l
  induction l with
  | nil => rfl
  | cons y ys ih =>
    rw [insertSorted]
    split
    · rfl
    · simp [ih]

theorem length_sortByName (l : List String) :
    (sortByName l).length = l.length := by
  induction l with
  | nil => rfl
  | cons x xs ih =>
    show (insertSorted x (sortByName xs)).length = xs.length + 1
    rw [length_insertSorted, ih]

theorem mem_convertLoop_skip :
    ∀ (l : List String) (h : String → Bool) (cp : String),
      Event.skip cp ∈ convertLoop h l → cp ∈ l := by
  intro l
  induction l with
  | nil => intro h cp hm; simp [convertLoop] at hm
  | cons c cs ih =>
    intro h cp hm
    rw [convertLoop] at hm
    split at hm
    · rcases List.mem_cons.mp hm with he | hm'
      · simp only [Event.skip.injEq] at he
        exact he ▸ List.mem_cons_self c cs
      · exact List.mem_cons_of_mem c (ih h cp hm')
    · simp only [List.mem_cons] at hm
      rcases hm with he | he | he | he | hm'
      all_goals first
        | (cases he)
        | (exact List.mem_cons_of_mem c (ih _ cp hm'))

theorem mem_convertLoop_write :
    ∀ (l : List String) (h : String → Bool) (s : String),
      Event.writeOutput s ∈ convertLoop h l → s ∈ l.map subdirName := by
  intro l
  induction l with
  | nil => intro h s hm; simp [convertLoop] at hm
  | cons c cs ih =>
    intro h s hm
    rw [convertLoop] at hm
    split at hm
    · rcases List.mem_cons.mp hm with he | hm'
      · cases he
      · exact List.mem_cons_of_mem _ (ih h s hm')
    · simp only [List.mem_cons] at hm
      rcases hm with he | he | he | he | hm'
      · cases he
      · cases he
      · cases he
      · simp only [Event.writeOutput.injEq] at he
        exact he ▸ List.mem_cons_self _ _
      · exact List.mem_cons_of_mem _ (ih _ s hm')

theorem mem_convertLoop_mkdir :
    ∀ (l : List String) (h : String → Bool) (s : String),
      Event.makeOutputDir s ∈ convertLoop h l → s ∈ l.map subdirName := by
  intro l
  induction l with
  | nil => intro h s hm; simp [convertLoop] at hm
  | cons c cs ih =>
    intro h s hm
    rw [convertLoop] at hm
    split at hm
    · rcases List.mem_cons.mp hm with he | hm'
      · cases he
      · exact List.mem_cons_of_mem _ (ih h s hm')
    · simp only [List.mem_cons] at hm
      rcases hm with he | he | he | he | hm'
      · simp only [Event.makeOutputDir.injEq] at he
        exact he ▸ List.mem_cons_self _ _
      · cases he
      · cases he
      · cases he
      · exact List.mem_cons_of_mem _ (ih _ s hm')

theorem convertLoop_skips :
    ∀ (l : List String) (h : String → Bool),
      (l.map subdirName).Nodup →
      ∀ cp ∈ l, h (subdirName cp) = true →
        Event.skip cp ∈ convertLoop h l
        ∧ Event.writeOutput (subdirName cp) ∉ convertLoop h l
        ∧ Event.makeOutputDir (subdirName cp) ∉ convertLoop h l := by
  intro l
  induction l with
  | nil => intro h _ cp hcp; simp at hcp
  | cons c cs ih =>
    intro h hnd cp hcp hW
    have hnc : subdirName c ∉ cs.map subdirName :=
      (List.nodup_cons.mp (by simpa using hnd)).1
    have hnds : (cs.map subdirName).Nodup :=
      (List.nodup_cons.mp (by simpa using hnd)).2
    rcases List.mem_cons.mp hcp with rfl | hcp'
    · rw [convertLoop, if_pos hW]
      refine ⟨List.mem_cons_self _ _, ?_, ?_⟩
      · intro hm
        rcases List.mem_cons.mp hm with he | hm'
        · cases he
        · exact hnc (mem_convertLoop_write cs h _ hm')
      · intro hm
        rcases List.mem_cons.mp hm with he | hm'
        · cases he
        · exact hnc (mem_convertLoop_mkdir cs h _ hm')
    · have hsub : subdirName cp ≠ subdirName c := by
        intro he
        exact hnc (he ▸ List.mem_map_of_mem subdirName hcp')
      cases hc : h (subdirName c) with
      | true =>
        rw [convertLoop, if_pos hc]
        obtain ⟨h1, h2, h3⟩ := ih h hnds cp hcp' hW
        refine ⟨List.mem_cons_of_mem _ h1, ?_, ?_⟩
        · intro hm
          rcases List.mem_cons.mp hm with he | hm'
          · cases he
          · exact h2 hm'
        · intro hm
          rcases List.mem_cons.mp hm with he | hm'
          · cases he
          · exact h3 hm'
      | false =>
        rw [convertLoop, if_neg (by simp [hc])]
        have hW' : (fun s => if s = subdirName c then true else h s)
            (subdirName cp) = true := by
          simp only [if_neg hsub]
          exact hW
        obtain ⟨h1, h2, h3⟩ :=
          ih (fun s => if s = subdirName c then true else h s) hnds cp hcp' hW'
        refine ⟨?_, ?_, ?_⟩
        · simp only [List.mem_cons]
          exact Or.inr (Or.inr (Or.inr (Or.inr h1)))
        · intro hm
          simp only [List.mem_cons] at hm
          rcases hm with he | he | he | he | hm'
          · cases he
          · cases he
          · cases he
          · simp only [Event.writeOutput.injEq] at he
            exact hsub he
          · exact h2 hm'
        · intro hm
          simp only [List.mem_cons] at hm
          rcases hm with he | he | he | he | hm'
          · simp only [Event.makeOutputDir.injEq] at he
            exact hsub he
          · cases he
          · cases he
          · cases he
          · exact h3 hm'

theorem convertLoop_converts :
    ∀ (l : List String) (h : String → Bool),
      (l.map subdirName).Nodup →
      ∀ cp ∈ l, h (subdirName cp) = false →
        Event.decode cp ∈ convertLoop h l
        ∧ Event.writeOutput (subdirName cp) ∈ convertLoop h l := by
  intro l
  induction l with
  | nil => intro h _ cp hcp; simp at hcp
  | cons c cs ih =>
    intro h hnd cp hcp hW
    have hnc : subdirName c ∉ cs.map subdirName :=
      (List.nodup_cons.mp (by simpa using hnd)).1
    have hnds : (cs.map subdirName).Nodup :=
      (List.nodup_cons.mp (by simpa using hnd)).2
    rcases List.mem_cons.mp hcp with rfl | hcp'
    · rw [convertLoop, if_neg (by simp [hW])]
      constructor
      · simp [List.mem_cons]
      · simp [List.mem_cons]
    · have hsub : subdirName cp ≠ subdirName c := by
        intro he
        exact hnc (he ▸ List.mem_map_of_mem subdirName hcp')
      cases hc : h (subdirName c) with
      | true =>
        rw [convertLoop, if_pos hc]
        obtain ⟨h1, h2⟩ := ih h hnds cp hcp' hW
        exact ⟨List.mem_cons_of_mem _ h1, List.mem_cons_of_mem _ h2⟩
      | false =>
        rw [convertLoop, if_neg (by simp [hc])]
        have hW' : (fun s => if s = subdirName c then true else h s)
            (subdirName cp) = false := by
          simp only [if_neg hsub]
          exact hW
        obtain ⟨h1, h2⟩ :=
          ih (fun s => if s = subdirName c then true else h s) hnds cp hcp' hW'
        constructor
        · simp only [List.mem_cons]
          exact Or.inr (Or.inr (Or.inr (Or.inr h1)))
        · simp only [List.mem_cons]
          exact Or.inr (Or.inr (Or.inr (Or.inr h2)))

theorem convertLoop_write_count :
    ∀ (l : List String) (h : String → Bool),
      (l.map subdirName).Nodup →
      (convertLoop h l).countP isWriteOutput
        = (l.filter (fun cp => !h (subdirName cp))).length := by
  intro l
  induction l with
  | nil => intro h _; rfl
  | cons c cs ih =>
    intro h hnd
    have hnc : subdirName c ∉ cs.map subdirName :=
      (List.nodup_cons.mp (by simpa using hnd)).1
    have hnds : (cs.map subdirName).Nodup :=
      (List.nodup_cons.mp (by simpa using hnd)).2
    cases hc : h (subdirName c) with
    | true =>
      rw [convertLoop, if_pos hc, List.countP_cons, List.filter_cons]
      simp only [hc, isSkip, isWriteOutput, Bool.not_true, if_neg]
      simp [ih h hnds]
    | false =>
      rw [convertLoop, if_neg (by simp [hc]), List.filter_cons]
      have hcongr :
          cs.filter (fun cp =>
            !(if subdirName cp = subdirName c then true else h (subdirName cp)))
          = cs.filter (fun cp => !h (subdirName cp)) := by
        apply List.filter_congr
        intro cp hcp
        have : subdirName cp ≠ subdirName c := by
          intro he
          exact hnc (he ▸ List.mem_map_of_mem subdirName hcp)
        simp [this]
      simp only [List.countP_cons, isWriteOutput, hc, Bool.not_false, if_pos,
        if_neg]
      rw [ih _ hnds]
      simp only [hcongr]
      simp

theorem convertLoop_fetch_add_skip :
    ∀ (l : List String) (h : String → Bool),
      (convertLoop h l).countP isFetchBase + (convertLoop h l).countP isSkip
        = l.length := by
  intro l
  induction l with
  | nil => intro h; rfl
  | cons c cs ih =>
    intro h
    cases hc : h (subdirName c) with
    | true =>
      rw [convertLoop, if_pos hc]
      have := ih h
      simp [List.countP_cons, isFetchBase, isSkip]
      omega
    | false =>
      rw [convertLoop, if_neg (by simp [hc])]
      have := ih (fun s => if s = subdirName c then true else h s)
      simp [List.countP_cons, isFetchBase, isSkip] at this ⊢
      omega

theorem process_checkpoints_run (env : Env) (tok first : String)
    (rest : List String)
    (hl : sortByName (List.filter hasPtExt env.files) = first :: rest)
    (htok : env.hfToken = some tok) :
    process_checkpoints env
      = (tokenizer_files.map Event.fetchTokenizerFile
           ++ Event.createScratch :: Event.decode first ::
                convertLoop env.hasWeights (first :: rest),
         none) := by
  unfold process_checkpoints
  rw [hl, htok]

/-- C4 counterexample: a batch of two unconverted checkpoints performs the
remote base-config fetch twice, because `update_config` — which calls the
fetch — runs inside the per-checkpoint loop (src/convert_to_hf.py line 212),
so the fetch count grows with N instead of being at most one per batch. -/
theorem fetch_base_config_twice_for_two_checkpoints :
    (process_checkpoints ⟨["b.pt", "a.pt"], some "tok", fun _ => false⟩).1.countP
        isFetchBase = 2
    ∧ ¬ ((process_checkpoints ⟨["b.pt", "a.pt"], some "tok", fun _ => false⟩).1.countP
        isFetchBase ≤ 1) := by
  refine ⟨by decide, by decide⟩

/-- C4 amended: the canonical base config is fetched once per checkpoint
actually converted, not once per batch: over any batch the number of
base-config fetches plus the number of skipped checkpoints equals the
number N of discovered checkpoints. -/
theorem fetch_base_config_once_per_conversion (env : Env)
    (tok first : String) (rest : List String)
    (hl : sortByName (List.filter hasPtExt env.files) = first :: rest)
    (htok : env.hfToken = some tok) :
    (process_checkpoints env).1.countP isFetchBase
      + (process_checkpoints env).1.countP isSkip
      = (first :: rest).length := by
  rw [process_checkpoints_run env tok first rest hl htok]
  have hf : (tokenizer_files.map Event.fetchTokenizerFile
        ++ Event.createScratch :: Event.decode first ::
             convertLoop env.hasWeights (first :: rest)).countP isFetchBase
      = (convertLoop env.hasWeights (first :: rest)).countP isFetchBase := by
    simp [tokenizer_files, List.countP_append, List.countP_cons, isFetchBase]
  have hs : (tokenizer_files.map Event.fetchTokenizerFile
        ++ Event.createScratch :: Event.decode first ::
             convertLoop env.hasWeights (first :: rest)).countP isSkip
      = (convertLoop env.hasWeights (first :: rest)).countP isSkip := by
    simp [tokenizer_files, List.countP_append, List.countP_cons, isSkip]
  rw [hf, hs]
  exact convertLoop_fetch_add_skip (first :: rest) env.hasWeights

/-- Witness for C4's amended theorem: two checkpoints, one already
converted: exactly one fetch plus one skip. -/
theorem fetch_base_config_once_per_conversion_witness :
    (process_checkpoints ⟨["b.pt", "a.pt"], some "t",
        fun s => s == "a"⟩).1.countP isFetchBase
      + (process_checkpoints ⟨["b.pt", "a.pt"], some "t",
          fun s => s == "a"⟩).1.countP isSkip
      = 2 := by
  have h := fetch_base_config_once_per_conversion
    ⟨["b.pt", "a.pt"], some "t", fun s => s == "a"⟩ "t" "a.pt" ["b.pt"]
    (by decide) rfl
  simpa using h

/-- C6 counterexample: two checkpoints `ep1.0.pt` and `ep1.1.pt`, neither
of whose output weights pre-exists (k = 0, N = 2), yet the run converts
only one of them: both basenames truncate to the output subdirectory
`ep1`, so the first conversion's weights file makes the second checkpoint
look already processed. -/
theorem process_checkpoints_shared_subdir_converts_fewer :
    (process_checkpoints ⟨["ep1.0.pt", "ep1.1.pt"], some "t",
        fun _ => false⟩).1.countP isWriteOutput = 1
    ∧ Event.skip "ep1.1.pt" ∈ (process_checkpoints ⟨["ep1.0.pt", "ep1.1.pt"],
        some "t", fun _ => false⟩).1
    ∧ (fun (_ : String) => false) (subdirName "ep1.1.pt") = false := by
  refine ⟨by decide, by decide, rfl⟩

/-- C6 amended: provided the discovered checkpoints' output subdirectory
names (basenames truncated at the first dot) are pairwise distinct, a run
with k of N checkpoints already converted writes output for exactly the
N − k checkpoints whose weights file is absent (each of them is decoded and
its output written), and never touches a pre-existing output directory of
a skipped checkpoint (it is neither created nor written, and the skip is
recorded). -/
theorem process_checkpoints_skip_resume (env : Env) (tok first : String)
    (rest : List String)
    (hl : sortByName (List.filter hasPtExt env.files) = first :: rest)
    (htok : env.hfToken = some tok)
    (hnd : ((first :: rest).map subdirName).Nodup) :
    ((process_checkpoints env).1.countP isWriteOutput
      = ((first :: rest).filter
          (fun cp => !env.hasWeights (subdirName cp))).length)
    ∧ (∀ cp ∈ first :: rest, env.hasWeights (subdirName cp) = true →
        Event.skip cp ∈ (process_checkpoints env).1
        ∧ Event.writeOutput (subdirName cp) ∉ (process_checkpoints env).1
        ∧ Event.makeOutputDir (subdirName cp) ∉ (process_checkpoints env).1)
    ∧ (∀ cp ∈ first :: rest, env.hasWeights (subdirName cp) = false →
        Event.decode cp ∈ (process_checkpoints env).1
        ∧ Event.writeOutput (subdirName cp) ∈ (process_checkpoints env).1) := by
  rw [process_checkpoints_run env tok first rest hl htok]
  refine ⟨?_, ?_, ?_⟩
  · simp only [List.countP_append, List.countP_cons]
    rw [convertLoop_write_count (first :: rest) env.hasWeights hnd]
    simp [isWriteOutput, tokenizer_files]
  · intro cp hcp hW
    obtain ⟨h1, h2, h3⟩ :=
      convertLoop_skips (first :: rest) env.hasWeights hnd cp hcp hW
    refine ⟨?_, ?_, ?_⟩
    · simp only [List.mem_append, List.mem_cons]
      exact Or.inr (Or.inr (Or.inr h1))
    · intro hm
      simp only [List.mem_append, List.mem_cons, List.mem_map,
        tokenizer_files] at hm
      rcases hm with hm | hm | hm | hm
      · simp at hm
      · cases hm
      · cases hm
      · exact h2 hm
    · intro hm
      simp only [List.mem_append, List.mem_cons, List.mem_map,
        tokenizer_files] at hm
      rcases hm with hm | hm | hm | hm
      · simp at hm
      · cases hm
      · cases hm
      · exact h3 hm
  · intro cp hcp hW
    obtain ⟨h1, h2⟩ :=
      convertLoop_converts (first :: rest) env.hasWeights hnd cp hcp hW
    constructor
    · simp only [List.mem_append, List.mem_cons]
      exact Or.inr (Or.inr (Or.inr h1))
    · simp only [List.mem_append, List.mem_cons]
      exact Or.inr (Or.inr (Or.inr h2))

/-- Witness for C6's amended theorem on a concrete batch: three
checkpoints, one pre-converted; two outputs are written, the pre-converted
one is skipped untouched, and an absent one is decoded and written. -/
theorem process_checkpoints_skip_resume_witness :
    ((process_checkpoints ⟨["b.pt", "a.pt", "skipme.pt"], some "t",
        fun s => s == "skipme"⟩).1.countP isWriteOutput
      = ((["a.pt", "b.pt", "skipme.pt"] : List String).filter
          (fun cp => !(fun s => s == "skipme") (subdirName cp))).length)
    ∧ (Event.skip "skipme.pt" ∈ (process_checkpoints ⟨["b.pt", "a.pt",
        "skipme.pt"], some "t", fun s => s == "skipme"⟩).1
        ∧ Event.writeOutput (subdirName "skipme.pt")
            ∉ (process_checkpoints ⟨["b.pt", "a.pt", "skipme.pt"], some "t",
                fun s => s == "skipme"⟩).1)
    ∧ Event.writeOutput (subdirName "a.pt")
        ∈ (process_checkpoints ⟨["b.pt", "a.pt", "skipme.pt"], some "t",
            fun s => s == "skipme"⟩).1 := by
  have h := process_checkpoints_skip_resume
    ⟨["b.pt", "a.pt", "skipme.pt"], some "t", fun s => s == "skipme"⟩
    "t" "a.pt" ["b.pt", "skipme.pt"] (by decide) rfl (by decide)
  exact ⟨h.1, ⟨(h.2.1 "skipme.pt" (by decide) (by decide)).1,
    (h.2.1 "skipme.pt" (by decide) (by decide)).2.1⟩,
    (h.2.2 "a.pt" (by decide) (by decide)).2⟩

/-- C7 counterexample: a non-empty input directory containing no `.pt`
file makes `process_checkpoints` terminate cleanly without any error even
though HF_TOKEN is absent — the empty-checkpoint check (line 141) runs
before the credential check (line 150), so the claim's trigger condition
"non-empty input directory" is too weak. -/
theorem process_checkpoints_nonempty_dir_no_pt_no_error :
    (["readme.txt"] : List String) ≠ []
    ∧ process_checkpoints ⟨["readme.txt"], none, fun _ => false⟩ = ([], none) := by
  refine ⟨by decide, by decide⟩

/-- C7 amended: if HF_TOKEN is absent and the input directory contains at
least one file with the `.pt` extension, `process_checkpoints` fails with
the missing-credential error before any checkpoint is decoded and before
the scratch workspace is created — the event trace is empty, so nothing
is processed and no partial scratch state exists. -/
theorem process_checkpoints_missing_token_fails_early (env : Env)
    (hne : List.filter hasPtExt env.files ≠ [])
    (htok : env.hfToken = none) :
    process_checkpoints env = ([], some Err.missingToken) := by
  cases hs : sortByName (List.filter hasPtExt env.files) with
  | nil =>
    exfalso
    apply hne
    have hlen := length_sortByName (List.filter hasPtExt env.files)
    rw [hs] at hlen
    exact List.length_eq_zero.mp hlen.symm
  | cons f r =>
    unfold process_checkpoints
    rw [hs, htok]

/-- Witness for C7's amended theorem at a concrete environment. -/
theorem process_checkpoints_missing_token_fails_early_witness :
    process_checkpoints ⟨["a.pt"], none, fun _ => false⟩
      = ([], some Err.missingToken) :=
  process_checkpoints_missing_token_fails_early
    ⟨["a.pt"], none, fun _ => false⟩ (by decide) rfl

/-- C8: when the input directory holds no file with the `.pt` extension,
`process_checkpoints` terminates cleanly: no error is reported, the event
trace is empty (no output written, no remote call made, no scratch
created), and this holds whether or not HF_TOKEN is present. -/
theorem process_checkpoints_no_checkpoints_clean (env : Env)
    (h : List.filter hasPtExt env.files = []) :
    process_checkpoints env = ([], none) := by
  unfold process_checkpoints
  rw [h]
  rfl

/-- Witness for C8 at a concrete environment with no credential. -/
theorem process_checkpoints_no_checkpoints_clean_witness :
    process_checkpoints ⟨["notes.md", "config.yaml"], none, fun _ => false⟩
      = ([], none) :=
  process_checkpoints_no_checkpoints_clean
    ⟨["notes.md", "config.yaml"], none, fun _ => false⟩ (by decide)

/-- C9: the output subdirectory name is the basename truncated at the
FIRST dot (`split(".")[0]`), not the basename with only the final `.pt`
removed; hence any two checkpoints agreeing up to the first dot share one
output subdirectory, and once the first is converted the second is skipped
as already processed. Concretely, `ep1.0.pt` maps to `ep1` (not `ep1.0`),
and processing `ep1.0.pt` then `ep1.1.pt` converts the first and skips the
second. -/
theorem subdir_first_dot_collision (n₁ n₂ : String) (hasW : String → Bool)
    (hsub : subdirName n₂ = subdirName n₁)
    (hW : hasW (subdirName n₁) = false) :
    convertLoop hasW [n₁, n₂]
      = [Event.makeOutputDir (subdirName n₁), Event.decode n₁,
         Event.fetchBaseConfig, Event.writeOutput (subdirName n₁),
         Event.skip n₂]
    ∧ subdirName "ep1.0.pt" = "ep1"
    ∧ subdirName "ep1.1.pt" = "ep1"
    ∧ subdirName "ep1.0.pt" ≠ "ep1.0" := by
  refine ⟨?_, by decide, by decide, by decide⟩
  simp [convertLoop, hW, hsub]

/-- Witness for C9's theorem at the concrete colliding pair. -/
theorem subdir_first_dot_collision_witness :
    convertLoop (fun _ => false) ["ep1.0.pt", "ep1.1.pt"]
      = [Event.makeOutputDir "ep1", Event.decode "ep1.0.pt",
         Event.fetchBaseConfig, Event.writeOutput "ep1",
         Event.skip "ep1.1.pt"] :=
  ((subdir_first_dot_collision "ep1.0.pt" "ep1.1.pt" (fun _ => false)
      (by decide) rfl).1).trans (by decide)

/-- C10: `main` always uses input_dir with trailing slashes stripped plus
"-converted" as the output directory; the command-line `--output_dir`
value is unconditionally overwritten (line 249) and never used. -/
theorem main_output_dir_from_input :
    (∀ (input : String) (cli cli' : Option String),
        main_output_dir input cli = main_output_dir input cli')
    ∧ (∀ (input : String) (cli : Option String),
        main_output_dir input cli = rstripSlashes input ++ "-converted")
    ∧ main_output_dir "runs/model//" (some "custom-out") = "runs/model-converted" :=
  ⟨fun _ _ _ => rfl, fun _ _ => rfl, by decide⟩

end ConvertToHf
